import Mathlib

/-!
Verification of the go-scpi SCPI client core.

The Go sources are shallowly embedded over `List Char` (Go strings are
byte/rune sequences; all protocol text here is ASCII).  The embedded
revision is the final one in the corpus: `errors.go` (`confirmError` and
`cmdErrRegexp`) together with the refactored `client.go` whose
`ExecContext` is split into `exec` (write only) and `queryError`
(`SYST:ERR?` verification via `QueryContext` and `confirmError`).
-/

/-- Go regexp class `\d`, i.e. the ASCII digits `[0-9]`. -/
def isGoDigit (c : Char) : Bool := '0' ≤ c && c ≤ '9'

/-- The character class `[+-]` of `cmdErrRegexp`. -/
def isSignChar (c : Char) : Bool := c == '+' || c == '-'

/-- Embeds `strings.ToLower`, restricted to the ASCII fold that the spec declares
sufficient for this English-only instrument text (§4.1 step 3). -/
def toLowerChar (c : Char) : Char :=
  if 'A' ≤ c && c ≤ 'Z' then Char.ofNat (c.toNat + 32) else c

/-- Embeds `strings.ToLower` on a whole string. -/
def toLowerList (l : List Char) : List Char := l.map toLowerChar

/-- A message segment the lazy group `(.*?)` can capture before the closing
quote: no double quote (the lazy group stops at the first one) and no
newline (`.` does not match `\n` in Go regexp). -/
def msgOk (msg : List Char) : Bool := msg.all (fun c => !(c == '"') && !(c == '\n'))

/-- The tail `(.*?)\"` of `cmdErrRegexp`: lazily scan to the first closing
quote, failing on a newline (which `.` cannot consume); returns the
captured group 2 and the remainder after the closing quote. -/
def scanMsg : List Char → Option (List Char × List Char)
  | [] => none
  | c :: rest =>
    if c = '"' then some ([], rest)
    else if c = '\n' then none
    else
      match scanMsg rest with
      | some (m, r) => some (c :: m, r)
      | none => none

/-- Matching `cmdErrRegexp`, i.e. `([+-]\d+),\"(.*?)\"`, anchored at the
head of the list: a sign, a maximal nonempty digit run followed by `,"`,
then the lazy message capture.  Returns the two capture groups. -/
def matchHere : List Char → Option (List Char × List Char)
  | [] => none
  | c :: rest =>
    if isSignChar c then
      if (rest.takeWhile isGoDigit).isEmpty then none
      else
        match rest.dropWhile isGoDigit with
        | ',' :: '"' :: rest3 =>
          match scanMsg rest3 with
          | some (m, _) => some (c :: rest.takeWhile isGoDigit, m)
          | none => none
        | _ => none
    else none

/-- Embeds `regexp.FindStringSubmatch` for `cmdErrRegexp`: the pattern is
unanchored, so try every start position from the left and return the
leftmost match's capture groups. -/
def findMatch : List Char → Option (List Char × List Char)
  | [] => none
  | c :: rest =>
    match matchHere (c :: rest) with
    | some g => some g
    | none => findMatch rest

/-- Decimal value of a digit run (how `strconv.Atoi` accumulates). -/
def digitsVal (ds : List Char) : Nat :=
  ds.foldl (fun a c => a * 10 + (c.toNat - 48)) 0

/-- Value of `math.MaxInt64`, the upper bound of Go's 64-bit `int`. -/
def intMaxNat : Nat := 9223372036854775807

/-- Absolute value of `math.MinInt64`. -/
def intMinAbsNat : Nat := 9223372036854775808

/-- The error values the embedded code can produce.  `ioError` is a
transport error from `net` (write/read failure; its text is supplied by
the environment), `errorf` a `fmt.Errorf` error, `commandError` the
`CommandError` struct of `errors.go`, `numError` a `strconv` parse error. -/
inductive GoError where
  /-- An `fmt.Errorf` generic error carrying only a message. -/
  | errorf (msg : List Char)
  /-- A `net` I/O error (write, read, or closed connection). -/
  | ioError (msg : List Char)
  /-- Modelled from the spec: `InvalidFormatError` "carries the raw text
  that failed to match either accepted error-report shape" and renders as
  `invalid format: <raw>` (per `errors_test.go`); the type's definition is
  absent from the `src/` snapshot, which only references it from tests. -/
  | invalidFormat (raw : List Char)
  /-- The `CommandError` struct of `errors.go` with its `cmd`, `code` and `msg` fields. -/
  | commandError (cmd : List Char) (code : Int) (msg : List Char)
  /-- A `strconv.Atoi` failure (out of range or malformed digits). -/
  | numError (input : List Char)
deriving DecidableEq

/-- Shared helper for `strconv.Atoi`: parse the digit run after the sign,
failing on an empty or non-digit run or a value outside Go's
64-bit `int` range (range). -/
def atoiDigits (orig : List Char) (neg : Bool) (ds : List Char) : Except GoError Int :=
  if ds.isEmpty || !(ds.all isGoDigit) then .error (.numError orig)
  else if neg then
    if digitsVal ds ≤ intMinAbsNat then .ok (-(digitsVal ds : Int))
    else .error (.numError orig)
  else
    if digitsVal ds ≤ intMaxNat then .ok ((digitsVal ds : Int))
    else .error (.numError orig)

/-- Embeds `strconv.Atoi`: optional sign then digits, 64-bit `int` range. -/
def atoi (l : List Char) : Except GoError Int :=
  match l with
  | '+' :: ds => atoiDigits ('+' :: ds) false ds
  | '-' :: ds => atoiDigits ('-' :: ds) true ds
  | ds => atoiDigits ds false ds

/-- The part of `confirmError` after the regexp matched: parse group 1
with `Atoi` (propagating its error), succeed when the code is `0`, and
otherwise build `CommandError{cmd, code, strings.ToLower(group 2)}`. -/
def decodeGroups (cmd g1 g2 : List Char) : Option GoError :=
  match atoi g1 with
  | .error e => some e
  | .ok code => if code = 0 then none else some (.commandError cmd code (toLowerList g2))

/-- Embeds `confirmError` of `errors.go`: run `cmdErrRegexp` over the error
response; with no match return `fmt.Errorf("invalid error format: %s", errRes)`;
otherwise decode the captured groups.  `none` models the Go `nil` error. -/
def confirmError (cmd errRes : List Char) : Option GoError :=
  match findMatch errRes with
  | none => some (.errorf ("invalid error format: ".toList ++ errRes))
  | some (g1, g2) => decodeGroups cmd g1 g2

/-- C1: the spec claims the decoder accepts both `<int>,"<msg>"` and the
quote-less `<int>, <msg>`.  The source regexp `([+-]\d+),\"(.*?)\"`
requires the quote right after the comma, so the quote-less report of
`TestConfirmError/CommandErrorWithoutQuotes` is rejected with the generic
invalid-format error, while the quoted variant decodes as claimed
(caller-supplied command, parsed code, lowercased message). -/
theorem c1_unquoted_shape_rejected :
    confirmError ("foo".toList) ("-101, Invalid character".toList)
      = some (.errorf ("invalid error format: -101, Invalid character".toList))
    ∧ confirmError ("foo".toList) ("-101,\"Invalid character\"".toList)
      = some (.commandError ("foo".toList) (-101) ("invalid character".toList)) := by
  constructor
  · decide
  · decide

/-- C5: on text matching neither shape, `confirmError` returns the plain
`fmt.Errorf("invalid error format: %s", errRes)` value — an error whose
message embeds the raw text, but not the `InvalidFormatError` value
(`invalid format: <raw>`) that `errors_test.go` and the spec require. -/
theorem c5_invalid_format_generic_error :
    confirmError ("foo".toList) ("foo, bar, baz".toList)
      = some (.errorf ("invalid error format: foo, bar, baz".toList))
    ∧ ∀ raw : List Char,
        GoError.errorf ("invalid error format: ".toList ++ raw) ≠ GoError.invalidFormat raw := by
  constructor
  · decide
  · intro raw h
    cases h

/-- The device/environment side of one TCP connection: whether a write of
the given bytes (after the given history of successful transmissions) is
refused with an OS error text, and what bytes (or read-error text) the
next `conn.Read` yields given the transmissions and reads so far. -/
structure Device where
  writeErr : List (List Char) → List Char → Option (List Char)
  respond : List (List Char) → Nat → Except (List Char) (List Char)

/-- Observable state of the `*net.TCPConn` owned by a `TCPClient`: the
successful transmissions in order, the number of reads performed, and
whether `Close` has been called. -/
structure Wire where
  writes : List (List Char)
  reads : Nat
  closed : Bool
deriving DecidableEq

/-- A command as transmitted: `cmd + "\n"` (client.go `exec`). -/
def line (cmd : List Char) : List Char := cmd ++ ['\n']

/-- Text of `net.ErrClosed`: operations on a closed connection fail with
this text. -/
def closedConnMsg : List Char := "use of closed network connection".toList

/-- The reserved error-queue query issued by `queryError`. -/
def systErrCmd : List Char := "SYST:ERR?".toList

/-- Embeds `conn.Write` seen as success/failure: a closed connection always
fails (`net.ErrClosed`), otherwise the device decides. -/
def execWrite (d : Device) (w : Wire) (b : List Char) : Option (List Char) :=
  if w.closed then some closedConnMsg else d.writeErr w.writes b

/-- Embeds `exec` of client.go: write the line `cmd` plus newline in one transmission,
propagating the write error unchanged. -/
def exec (d : Device) (w : Wire) (cmd : List Char) : Except GoError Unit × Wire :=
  match execWrite d w (line cmd) with
  | some m => (.error (.ioError m), w)
  | none => (.ok (), { w with writes := w.writes ++ [line cmd] })

/-- One `conn.Read` into the fixed `make([]byte, 1024)` buffer: at most
1024 bytes of the arriving data are kept (`buf[:l]`). -/
def connRead (d : Device) (w : Wire) : Except GoError (List Char) × Wire :=
  if w.closed then (.error (.ioError closedConnMsg), { w with reads := w.reads + 1 })
  else
    match d.respond w.writes w.reads with
    | .error m => (.error (.ioError m), { w with reads := w.reads + 1 })
    | .ok data => (.ok (data.take 1024), { w with reads := w.reads + 1 })

/-- Embeds `QueryContext` of client.go: `exec` the command (error returned
unwrapped), then exactly one bounded read; no error-verification cycle. -/
def queryContext (d : Device) (w : Wire) (cmd : List Char) : Except GoError (List Char) × Wire :=
  match exec d w cmd with
  | (.error e, w1) => (.error e, w1)
  | (.ok _, w1) =>
    match connRead d w1 with
    | (.error e, w2) => (.error e, w2)
    | (.ok res, w2) => (.ok res, w2)

/-- Embeds `queryError` of client.go: query `SYST:ERR?` and run the response
through `confirmError`, reporting `prevCmd` as the offending command. -/
def queryError (d : Device) (w : Wire) (prevCmd : List Char) : Except GoError Unit × Wire :=
  match queryContext d w systErrCmd with
  | (.error e, w1) => (.error e, w1)
  | (.ok res, w1) =>
    match confirmError prevCmd res with
    | some e => (.error e, w1)
    | none => (.ok (), w1)

/-- The apostrophe character (used by the Go format strings). -/
def squote : Char := Char.ofNat 39

/-- The `Error()` text of each embedded error value (`%s` rendering).  Only
`ioError` ever flows into a `%s` in this codebase (via `ExecContext`). -/
def goErrorText : GoError → List Char
  | .errorf m => m
  | .ioError m => m
  | .invalidFormat raw => "invalid format: ".toList ++ raw
  | .commandError c k m =>
    squote :: (c ++ squote :: (" returned ".toList ++
      ((if k < 0 then '-' :: (Nat.toDigits 10 k.natAbs) else Nat.toDigits 10 k.toNat) ++
        (": ".toList ++ m))))
  | .numError input => "strconv.Atoi: parsing ".toList ++ ('"' :: (input ++ '"' :: ": value out of range".toList))

/-- Message built by `ExecContext` on a write failure: the command and the cause. -/
def execWrapMsg (cmd m : List Char) : List Char :=
  "failed to execute the command ".toList ++ squote :: (cmd ++ squote :: (": ".toList ++ m))

/-- Embeds `ExecContext` of client.go: `exec` the command (wrapping a write
failure in the `failed to execute the command` message), then run the
error-verification cycle `queryError`. -/
def execContext (d : Device) (w : Wire) (cmd : List Char) : Except GoError Unit × Wire :=
  match exec d w cmd with
  | (.error e, w1) => (.error (.errorf (execWrapMsg cmd (goErrorText e))), w1)
  | (.ok _, w1) => queryError d w1 cmd

/-- Embeds `strings.Join` with separator `;`. -/
def joinCmds (cmds : List (List Char)) : List Char := List.intercalate [';'] cmds

/-- Embeds `BulkExecContext` of client.go: join with `;` and delegate to
`ExecContext`. -/
def bulkExecContext (d : Device) (w : Wire) (cmds : List (List Char)) :
    Except GoError Unit × Wire :=
  execContext d w (joinCmds cmds)

/-- Embeds `PingContext` of client.go: not implemented; returns `nil` and
touches nothing. -/
def pingContext (_d : Device) (w : Wire) : Except GoError Unit × Wire := (.ok (), w)

/-- Embeds `Close` of client.go, which delegates to the connection: marks the connection
closed; a second close fails with `net.ErrClosed`. -/
def close (w : Wire) : Except GoError Unit × Wire :=
  if w.closed then (.error (.ioError closedConnMsg), w)
  else (.ok (), { w with closed := true })

/-- An always-healthy device whose error queue reports `+0,"No error"`. -/
def dev0 : Device :=
  { writeErr := fun _ _ => none
    respond := fun _ _ => .ok ("+0,\"No error\"".toList) }

/-- A device whose writes all fail. -/
def devFail : Device :=
  { writeErr := fun _ _ => some ("broken pipe".toList)
    respond := fun _ _ => .error ("broken pipe".toList) }

/-- A fresh, open connection with no traffic yet. -/
def wire0 : Wire := { writes := [], reads := 0, closed := false }

/-- Lemma: `confirmError` reports no error exactly when the regexp matched and
the parsed code is `0`. -/
theorem confirmError_none_iff (cmd r : List Char) :
    confirmError cmd r = none ↔
      ∃ g1 g2, findMatch r = some (g1, g2) ∧ atoi g1 = .ok 0 := by
  unfold confirmError
  cases hf : findMatch r with
  | none =>
    simp
  | some g =>
    obtain ⟨g1, g2⟩ := g
    simp only [decodeGroups]
    cases ha : atoi g1 with
    | error e => simp [ha]
    | ok code =>
      constructor
      · intro h
        refine ⟨g1, g2, rfl, ?_⟩
        by_cases hc : code = 0
        · rw [ha, hc]
        · simp [hc] at h
      · rintro ⟨g1', g2', hg, h0⟩
        obtain ⟨rfl, rfl⟩ : g1' = g1 ∧ g2' = g2 := by
          constructor <;> injection hg with h1 <;> simp_all
        rw [ha] at h0
        injection h0 with h0
        simp [← h0]

/-- C9: `Ping`/`PingContext` always return `nil` and perform no
transmission: the wire state is untouched in every state of the session. -/
theorem c9_ping_noop (d : Device) (w : Wire) : pingContext d w = (.ok (), w) := rfl

/-- C4: `BulkExec` is definitionally `Exec` on the `;`-join of the
commands (so the single joined line is transmitted once, one
error-verification cycle runs, and errors are attributed to the whole
joined string); joining two commands yields `A;B`. -/
theorem c4_bulkExec_join (d : Device) (w : Wire) (cmds : List (List Char))
    (a b : List Char) :
    bulkExecContext d w cmds = execContext d w (joinCmds cmds)
    ∧ joinCmds [a, b] = a ++ ';' :: b := by
  constructor
  · rfl
  · simp [joinCmds, List.intercalate, List.intersperse]

/-- A successful write implies the connection was not closed. -/
theorem execWrite_none_closed (d : Device) (w : Wire) (b : List Char)
    (h : execWrite d w b = none) : w.closed = false := by
  cases hc : w.closed
  · rfl
  · simp [execWrite, hc] at h

/-- C3: `QueryContext` writes the command line once, performs exactly one
bounded read, and returns exactly the first 1024 bytes of whatever
arrived (silent truncation); it never transmits `SYST:ERR?`, and it
succeeds exactly when both the write and the read succeed. -/
theorem c3_query_contract (d : Device) (w : Wire) (cmd : List Char) :
    (∀ m, execWrite d w (line cmd) = some m →
        queryContext d w cmd = (.error (.ioError m), w))
    ∧ (execWrite d w (line cmd) = none →
        (∀ m, d.respond (w.writes ++ [line cmd]) w.reads = .error m →
            queryContext d w cmd
              = (.error (.ioError m),
                 { w with writes := w.writes ++ [line cmd], reads := w.reads + 1 }))
        ∧ (∀ data, d.respond (w.writes ++ [line cmd]) w.reads = .ok data →
            queryContext d w cmd
              = (.ok (data.take 1024),
                 { w with writes := w.writes ++ [line cmd], reads := w.reads + 1 })))
    ∧ ((queryContext d w cmd).2.writes = w.writes
       ∨ (queryContext d w cmd).2.writes = w.writes ++ [line cmd])
    ∧ (∀ res w2, queryContext d w cmd = (.ok res, w2) →
        execWrite d w (line cmd) = none
        ∧ ∃ data, d.respond (w.writes ++ [line cmd]) w.reads = .ok data
            ∧ res = data.take 1024) := by
  cases hw : execWrite d w (line cmd) with
  | some m0 =>
    have hx : queryContext d w cmd = (.error (.ioError m0), w) := by
      unfold queryContext exec
      rw [hw]
    refine ⟨?_, ?_, ?_, ?_⟩
    · intro m hm
      injection hm with hm
      rw [← hm]
      exact hx
    · intro h
      exact Option.noConfusion h
    · left
      rw [hx]
    · intro res w2 h
      rw [hx] at h
      exact absurd (congrArg Prod.fst h) (by simp)
  | none =>
    have hcl : w.closed = false := execWrite_none_closed d w _ hw
    cases hr : d.respond (w.writes ++ [line cmd]) w.reads with
    | error m2 =>
      have hx : queryContext d w cmd
          = (.error (.ioError m2),
             { w with writes := w.writes ++ [line cmd], reads := w.reads + 1 }) := by
        simp [queryContext, exec, connRead, hw, hcl, hr]
      refine ⟨?_, ?_, ?_, ?_⟩
      · intro m hm
        exact Option.noConfusion hm
      · intro _
        constructor
        · intro m hm
          injection hm with hm
          rw [← hm]
          exact hx
        · intro data hd
          exact Except.noConfusion hd
      · right
        rw [hx]
      · intro res w2 h
        rw [hx] at h
        exact absurd (congrArg Prod.fst h) (by simp)
    | ok data =>
      have hx : queryContext d w cmd
          = (.ok (data.take 1024),
             { w with writes := w.writes ++ [line cmd], reads := w.reads + 1 }) := by
        simp [queryContext, exec, connRead, hw, hcl, hr]
      refine ⟨?_, ?_, ?_, ?_⟩
      · intro m hm
        exact Option.noConfusion hm
      · intro _
        constructor
        · intro m hm
          exact Except.noConfusion hm
        · intro data' hd
          injection hd with hd
          rw [← hd]
          exact hx
      · right
        rw [hx]
      · intro res w2 h
        rw [hx] at h
        refine ⟨rfl, data, rfl, ?_⟩
        have := congrArg Prod.fst h
        simp at this
        exact this.symm

/-- C2: `Exec` writes `cmd + "\n"` once; a write failure surfaces as the
wrapped transport error with no further transmission; on write success
exactly one `SYST:ERR?` query runs and `Exec` succeeds iff the decoded
error code is `0`, so a successful `Exec` puts exactly the two lines
`cmd` and `SYST:ERR?` on the wire. -/
theorem c2_exec_contract (d : Device) (w : Wire) (cmd : List Char) :
    (∀ m, execWrite d w (line cmd) = some m →
        execContext d w cmd = (.error (.errorf (execWrapMsg cmd m)), w))
    ∧ (execWrite d w (line cmd) = none →
        execContext d w cmd
          = queryError d { w with writes := w.writes ++ [line cmd] } cmd)
    ∧ ((execContext d w cmd).1 = .ok () ↔
        (execWrite d w (line cmd) = none
         ∧ d.writeErr (w.writes ++ [line cmd]) (line systErrCmd) = none
         ∧ ∃ data, d.respond (w.writes ++ [line cmd, line systErrCmd]) w.reads = .ok data
             ∧ confirmError cmd (data.take 1024) = none))
    ∧ ((execContext d w cmd).1 = .ok () →
        (execContext d w cmd).2
          = { w with writes := w.writes ++ [line cmd, line systErrCmd],
                     reads := w.reads + 1 })
    ∧ ((execContext d w cmd).2.writes = w.writes
       ∨ (execContext d w cmd).2.writes = w.writes ++ [line cmd]
       ∨ (execContext d w cmd).2.writes = w.writes ++ [line cmd, line systErrCmd])
    ∧ (∀ r, confirmError cmd r = none ↔
        ∃ g1 g2, findMatch r = some (g1, g2) ∧ atoi g1 = .ok 0) := by
  cases hw : execWrite d w (line cmd) with
  | some m0 =>
    have hx : execContext d w cmd = (.error (.errorf (execWrapMsg cmd m0)), w) := by
      unfold execContext exec
      rw [hw]
      rfl
    refine ⟨?_, ?_, ?_, ?_, ?_, ?_⟩
    · intro m hm
      injection hm with hm
      rw [← hm]
      exact hx
    · intro h
      exact Option.noConfusion h
    · rw [hx]
      constructor
      · intro h
        exact absurd h (by simp)
      · rintro ⟨h1, -⟩
        exact Option.noConfusion h1
    · intro h
      rw [hx] at h
      exact absurd h (by simp)
    · left
      rw [hx]
    · exact fun r => confirmError_none_iff cmd r
  | none =>
    have hcl : w.closed = false := execWrite_none_closed d w _ hw
    have hx : execContext d w cmd
        = queryError d { w with writes := w.writes ++ [line cmd] } cmd := by
      unfold execContext exec
      rw [hw]
    cases hq : d.writeErr (w.writes ++ [line cmd]) (line systErrCmd) with
    | some m1 =>
      have hy : execContext d w cmd
          = (.error (.ioError m1), { w with writes := w.writes ++ [line cmd] }) := by
        rw [hx]
        simp [queryError, queryContext, exec, execWrite, hcl, hq]
      refine ⟨?_, ?_, ?_, ?_, ?_, ?_⟩
      · intro m hm
        exact Option.noConfusion hm
      · intro _
        exact hx
      · rw [hy]
        constructor
        · intro h
          exact absurd h (by simp)
        · rintro ⟨-, h2, -⟩
          exact Option.noConfusion h2
      · intro h
        rw [hy] at h
        exact absurd h (by simp)
      · right; left
        rw [hy]
      · exact fun r => confirmError_none_iff cmd r
    | none =>
      cases hr : d.respond (w.writes ++ [line cmd, line systErrCmd]) w.reads with
      | error m2 =>
        have hy : execContext d w cmd
            = (.error (.ioError m2),
               { w with writes := w.writes ++ [line cmd, line systErrCmd],
                        reads := w.reads + 1 }) := by
          rw [hx]
          simp [queryError, queryContext, exec, execWrite, connRead, hcl, hq, hr]
        refine ⟨?_, ?_, ?_, ?_, ?_, ?_⟩
        · intro m hm
          exact Option.noConfusion hm
        · intro _
          exact hx
        · rw [hy]
          constructor
          · intro h
            exact absurd h (by simp)
          · rintro ⟨-, -, data, hd, -⟩
            exact Except.noConfusion hd
        · intro h
          rw [hy] at h
          exact absurd h (by simp)
        · right; right
          rw [hy]
        · exact fun r => confirmError_none_iff cmd r
      | ok data =>
        cases hc2 : confirmError cmd (data.take 1024) with
        | some e =>
          have hy : execContext d w cmd
              = (.error e,
                 { w with writes := w.writes ++ [line cmd, line systErrCmd],
                          reads := w.reads + 1 }) := by
            rw [hx]
            simp [queryError, queryContext, exec, execWrite, connRead, hcl, hq, hr, hc2]
          refine ⟨?_, ?_, ?_, ?_, ?_, ?_⟩
          · intro m hm
            exact Option.noConfusion hm
          · intro _
            exact hx
          · rw [hy]
            constructor
            · intro h
              exact absurd h (by simp)
            · rintro ⟨-, -, data', hd, hcf⟩
              injection hd with hd
              rw [← hd] at hcf
              rw [hc2] at hcf
              exact Option.noConfusion hcf
          · intro h
            rw [hy] at h
            exact absurd h (by simp)
          · right; right
            rw [hy]
          · exact fun r => confirmError_none_iff cmd r
        | none =>
          have hy : execContext d w cmd
              = (.ok (),
                 { w with writes := w.writes ++ [line cmd, line systErrCmd],
                          reads := w.reads + 1 }) := by
            rw [hx]
            simp [queryError, queryContext, exec, execWrite, connRead, hcl, hq, hr, hc2]
          refine ⟨?_, ?_, ?_, ?_, ?_, ?_⟩
          · intro m hm
            exact Option.noConfusion hm
          · intro _
            exact hx
          · rw [hy]
            constructor
            · intro _
              exact ⟨rfl, rfl, data, rfl, hc2⟩
            · intro _
              rfl
          · intro _
            rw [hy]
          · right; right
            rw [hy]
          · exact fun r => confirmError_none_iff cmd r

/-- Witness for C2: on a healthy device whose error queue answers
`+0,"No error"`, `Exec` succeeds; on a device refusing the write, `Exec`
returns the wrapped transport error with nothing transmitted. -/
theorem c2_exec_contract_witness :
    (execContext dev0 wire0 ("*CLS".toList)).1 = .ok ()
    ∧ execContext devFail wire0 ("*CLS".toList)
        = (.error (.errorf (execWrapMsg ("*CLS".toList) ("broken pipe".toList))), wire0) := by
  constructor
  · exact (c2_exec_contract dev0 wire0 ("*CLS".toList)).2.2.1.mpr
      ⟨rfl, rfl, "+0,\"No error\"".toList, rfl, by decide⟩
  · exact (c2_exec_contract devFail wire0 ("*CLS".toList)).1 ("broken pipe".toList) rfl

/-- Witness for C3: a query against the healthy device transmits one line
and returns the single read, truncated to the buffer. -/
theorem c3_query_contract_witness :
    queryContext dev0 wire0 ("*IDN?".toList)
      = (.ok (("+0,\"No error\"".toList).take 1024),
         { wire0 with writes := wire0.writes ++ [line ("*IDN?".toList)],
                      reads := wire0.reads + 1 }) :=
  ((c3_query_contract dev0 wire0 ("*IDN?".toList)).2.1 rfl).2 ("+0,\"No error\"".toList) rfl

/-- C8 counterexample: after a successful `Close`, `Ping` still returns
success (it is unimplemented and performs no I/O), refuting the claim
that *every* subsequent operation fails with a session-closed error. -/
theorem c8_close_cex :
    close wire0 = (.ok (), { wire0 with closed := true })
    ∧ pingContext dev0 { wire0 with closed := true }
        = (.ok (), { wire0 with closed := true }) :=
  ⟨rfl, rfl⟩

/-- C8 amended: after a successful `Close`, every subsequent `Exec`,
`Query` and `BulkExec` fails with the closed-connection transport error
(`use of closed network connection`) and transmits nothing; `Ping` alone
still returns success since it performs no I/O. -/
theorem c8_close_amended (d : Device) (w : Wire) (cmd : List Char)
    (cmds : List (List Char)) (h : w.closed = false) :
    close w = (.ok (), { w with closed := true })
    ∧ execContext d { w with closed := true } cmd
        = (.error (.errorf (execWrapMsg cmd closedConnMsg)), { w with closed := true })
    ∧ queryContext d { w with closed := true } cmd
        = (.error (.ioError closedConnMsg), { w with closed := true })
    ∧ bulkExecContext d { w with closed := true } cmds
        = (.error (.errorf (execWrapMsg (joinCmds cmds) closedConnMsg)),
           { w with closed := true })
    ∧ pingContext d { w with closed := true } = (.ok (), { w with closed := true }) := by
  refine ⟨?_, ?_, ?_, ?_, rfl⟩
  · simp [close, h]
  · simp [execContext, exec, execWrite, goErrorText]
  · simp [queryContext, exec, execWrite]
  · simp [bulkExecContext, execContext, exec, execWrite, goErrorText]

/-- Witness for the amended C8: a concrete closed session refuses an
`Exec`. -/
theorem c8_close_amended_witness :
    execContext dev0 { wire0 with closed := true } ("*RST".toList)
      = (.error (.errorf (execWrapMsg ("*RST".toList) closedConnMsg)),
         { wire0 with closed := true }) :=
  (c8_close_amended dev0 wire0 ("*RST".toList) [] rfl).2.1

/-- Decimal digits of `n` (most significant first), with `fuel` bounding
the recursion depth (any `fuel ≥ n` is exact). -/
def natDigitsAux : Nat → Nat → List Char
  | 0, _ => []
  | fuel + 1, n =>
    if n = 0 then []
    else natDigitsAux fuel (n / 10) ++ [Char.ofNat (48 + n % 10)]

/-- Go `%d` rendering of a natural number. -/
def natDigits (n : Nat) : List Char :=
  if n = 0 then ['0'] else natDigitsAux n n

/-- The wire-format error-report text of a `CommandError` with the given
code and message: explicit sign, decimal code, comma, quoted message
(spec §3 "Device Error Report", quoted variant). -/
def encodeWire (code : Int) (msg : List Char) : List Char :=
  (if code < 0 then '-' :: natDigits code.natAbs else '+' :: natDigits code.toNat)
    ++ ',' :: '"' :: (msg ++ '"' :: [])

theorem charOfNat_digit_toNat (d : Nat) (hd : d < 10) :
    (Char.ofNat (48 + d)).toNat = 48 + d := by
  interval_cases d <;> decide

theorem isGoDigit_ofNat (d : Nat) (hd : d < 10) :
    isGoDigit (Char.ofNat (48 + d)) = true := by
  interval_cases d <;> decide

theorem digitsVal_append_singleton (l : List Char) (c : Char) :
    digitsVal (l ++ [c]) = digitsVal l * 10 + (c.toNat - 48) := by
  simp [digitsVal, List.foldl_append]

theorem natDigitsAux_spec (fuel : Nat) : ∀ n, n ≤ fuel →
    digitsVal (natDigitsAux fuel n) = n
    ∧ (natDigitsAux fuel n).all isGoDigit = true
    ∧ (n ≠ 0 → natDigitsAux fuel n ≠ []) := by
  induction fuel with
  | zero =>
    intro n hn
    have h0 : n = 0 := Nat.le_zero.mp hn
    subst h0
    refine ⟨rfl, rfl, fun h => absurd rfl h⟩
  | succ fuel ih =>
    intro n hn
    by_cases h0 : n = 0
    · subst h0
      refine ⟨?_, ?_, fun h => absurd rfl h⟩
      · simp [natDigitsAux, digitsVal]
      · simp [natDigitsAux]
    · have hdiv : n / 10 ≤ fuel := by
        have : n / 10 < n := Nat.div_lt_self (Nat.pos_of_ne_zero h0) (by norm_num)
        omega
      obtain ⟨ih1, ih2, -⟩ := ih (n / 10) hdiv
      have hmod : n % 10 < 10 := Nat.mod_lt n (by norm_num)
      have hstep : natDigitsAux (fuel + 1) n
          = natDigitsAux fuel (n / 10) ++ [Char.ofNat (48 + n % 10)] := by
        simp [natDigitsAux, h0]
      refine ⟨?_, ?_, ?_⟩
      · rw [hstep, digitsVal_append_singleton, ih1, charOfNat_digit_toNat _ hmod]
        omega
      · rw [hstep]
        simp [List.all_append, ih2, isGoDigit_ofNat _ hmod]
      · intro _
        rw [hstep]
        simp

theorem digitsVal_natDigits (n : Nat) : digitsVal (natDigits n) = n := by
  unfold natDigits
  split
  · rename_i h
    rw [h]
    decide
  · exact (natDigitsAux_spec n n le_rfl).1

theorem natDigits_all (n : Nat) : (natDigits n).all isGoDigit = true := by
  unfold natDigits
  split
  · decide
  · exact (natDigitsAux_spec n n le_rfl).2.1

theorem natDigits_ne_nil (n : Nat) : natDigits n ≠ [] := by
  unfold natDigits
  split
  · simp
  · rename_i h
    exact (natDigitsAux_spec n n le_rfl).2.2 h

theorem scanMsg_shaped (msg rest : List Char) (hm : msgOk msg = true) :
    scanMsg (msg ++ '"' :: rest) = some (msg, rest) := by
  induction msg with
  | nil => simp [scanMsg]
  | cons c m ih =>
    simp only [msgOk, List.all_cons, Bool.and_eq_true, Bool.not_eq_true',
      beq_eq_false_iff_ne, ne_eq] at hm
    obtain ⟨⟨hc1, hc2⟩, hm⟩ := hm
    rw [List.cons_append]
    simp only [scanMsg, if_neg hc1, if_neg hc2]
    rw [ih (by simpa [msgOk, Bool.not_eq_true', beq_eq_false_iff_ne] using hm)]

theorem scanMsg_sound (l : List Char) : ∀ m r, scanMsg l = some (m, r) →
    l = m ++ '"' :: r ∧ msgOk m = true := by
  induction l with
  | nil => intro m r h; simp [scanMsg] at h
  | cons c rest ih =>
    intro m r h
    by_cases hc : c = '"'
    · subst hc
      simp only [scanMsg, if_pos rfl] at h
      injection h with h
      injection h with h1 h2
      subst h1
      subst h2
      exact ⟨by simp, rfl⟩
    · by_cases hn : c = '\n'
      · subst hn
        simp [scanMsg, hc] at h
      · simp only [scanMsg, if_neg hc, if_neg hn] at h
        cases hs : scanMsg rest with
        | none => rw [hs] at h; simp at h
        | some p =>
          obtain ⟨m', r'⟩ := p
          rw [hs] at h
          injection h with h
          have hm1 : c :: m' = m := congrArg Prod.fst h
          have hr1 : r' = r := congrArg Prod.snd h
          obtain ⟨h1, h2⟩ := ih m' r' hs
          subst hm1
          subst hr1
          constructor
          · rw [h1]
            simp
          · simp [msgOk, hc, hn]
            simpa [msgOk, Bool.not_eq_true', beq_eq_false_iff_ne] using h2

theorem takeWhile_all_append (p : Char → Bool) (ds : List Char) (c : Char) (r : List Char)
    (h : ds.all p = true) (hc : p c = false) :
    (ds ++ c :: r).takeWhile p = ds ∧ (ds ++ c :: r).dropWhile p = c :: r := by
  induction ds with
  | nil => simp [List.takeWhile_cons, List.dropWhile_cons, hc]
  | cons a as ih =>
    simp only [List.all_cons, Bool.and_eq_true] at h
    obtain ⟨ha, hs⟩ := h
    obtain ⟨ih1, ih2⟩ := ih hs
    simp [List.takeWhile_cons, List.dropWhile_cons, ha, ih1, ih2]

theorem matchHere_shaped (sgn : Char) (ds msg rest : List Char)
    (hs : isSignChar sgn = true) (hd : ds ≠ []) (hdd : ds.all isGoDigit = true)
    (hm : msgOk msg = true) :
    matchHere (sgn :: (ds ++ ',' :: '"' :: (msg ++ '"' :: rest))) = some (sgn :: ds, msg) := by
  obtain ⟨htw, hdw⟩ :=
    takeWhile_all_append isGoDigit ds ',' ('"' :: (msg ++ '"' :: rest)) hdd (by decide)
  have hie : ((ds ++ ',' :: '"' :: (msg ++ '"' :: rest)).takeWhile isGoDigit).isEmpty = false := by
    rw [htw]
    cases ds with
    | nil => exact absurd rfl hd
    | cons a as => rfl
  simp only [matchHere, hs, if_true, hie, Bool.false_eq_true, if_false, hdw]
  rw [scanMsg_shaped msg rest hm, htw]


theorem matchHere_sound (l : List Char) (g1 g2 : List Char)
    (h : matchHere l = some (g1, g2)) :
    ∃ sgn ds msg rest, l = sgn :: (ds ++ ',' :: '"' :: (msg ++ '"' :: rest))
      ∧ g1 = sgn :: ds ∧ g2 = msg ∧ isSignChar sgn = true ∧ ds ≠ []
      ∧ ds.all isGoDigit = true ∧ msgOk msg = true := by
  cases l with
  | nil => simp [matchHere] at h
  | cons c rest =>
    simp only [matchHere] at h
    by_cases hs : isSignChar c
    case neg => rw [if_neg hs] at h; exact absurd h (by simp)
    rw [if_pos hs] at h
    split at h
    · exact absurd h (by simp)
    · rename_i hne
      split at h
      · rename_i rest3 hdw
        split at h
        · rename_i m r2 hsc
          injection h with h
          have hg1 : c :: rest.takeWhile isGoDigit = g1 := congrArg Prod.fst h
          have hg2 : m = g2 := congrArg Prod.snd h
          obtain ⟨hr3, hmok⟩ := scanMsg_sound rest3 m r2 hsc
          refine ⟨c, rest.takeWhile isGoDigit, m, r2, ?_, hg1.symm, hg2.symm, hs, ?_, ?_, hmok⟩
          · have := List.takeWhile_append_dropWhile isGoDigit rest
            rw [hdw, hr3] at this
            exact congrArg (fun t => c :: t) this.symm
          · simpa [List.isEmpty_iff] using hne
          · exact List.all_takeWhile
        · exact absurd h (by simp)
      · exact absurd h (by simp)

theorem findMatch_cons_some (c : Char) (rest : List Char) (g : List Char × List Char)
    (h : matchHere (c :: rest) = some g) : findMatch (c :: rest) = some g := by
  simp [findMatch, h]

theorem findMatch_cons_none (c : Char) (rest : List Char)
    (h : matchHere (c :: rest) = none) : findMatch (c :: rest) = findMatch rest := by
  simp [findMatch, h]

/-- A report in the shape of `cmdErrRegexp` starts at position `i` of `t`:
sign, nonempty digit run, `,"`, quote-free newline-free text, `"`. -/
def shapedAt (t : List Char) (i : Nat) : Prop :=
  ∃ sgn ds msg rest, t.drop i = sgn :: (ds ++ ',' :: '"' :: (msg ++ '"' :: rest))
    ∧ isSignChar sgn = true ∧ ds ≠ [] ∧ ds.all isGoDigit = true ∧ msgOk msg = true

theorem findMatch_leftmost (sgn : Char) (ds msg : List Char)
    (hs : isSignChar sgn = true) (hd : ds ≠ []) (hdd : ds.all isGoDigit = true)
    (hm : msgOk msg = true) :
    ∀ (pre suf : List Char),
      (∀ i, i < pre.length →
        ¬ shapedAt (pre ++ sgn :: (ds ++ ',' :: '"' :: (msg ++ '"' :: suf))) i) →
      findMatch (pre ++ sgn :: (ds ++ ',' :: '"' :: (msg ++ '"' :: suf)))
        = some (sgn :: ds, msg) := by
  intro pre
  induction pre with
  | nil =>
    intro suf _
    rw [List.nil_append]
    exact findMatch_cons_some _ _ _ (matchHere_shaped sgn ds msg suf hs hd hdd hm)
  | cons c p ih =>
    intro suf hleft
    have h0 : ¬ shapedAt ((c :: p) ++ sgn :: (ds ++ ',' :: '"' :: (msg ++ '"' :: suf))) 0 :=
      hleft 0 (by simp)
    have hmh : matchHere ((c :: p) ++ sgn :: (ds ++ ',' :: '"' :: (msg ++ '"' :: suf)))
        = none := by
      cases hcase : matchHere ((c :: p) ++ sgn :: (ds ++ ',' :: '"' :: (msg ++ '"' :: suf))) with
      | none => rfl
      | some g =>
        exfalso
        obtain ⟨g1, g2⟩ := g
        obtain ⟨sgn', ds', msg', rest', heq, -, -, hs', hd', hdd', hm'⟩ :=
          matchHere_sound _ _ _ hcase
        exact h0 ⟨sgn', ds', msg', rest', by rw [List.drop_zero]; exact heq, hs', hd', hdd', hm'⟩
    rw [List.cons_append, findMatch_cons_none _ _ (by rw [← List.cons_append]; exact hmh)]
    refine ih suf ?_
    intro i hi
    have := hleft (i + 1) (by simpa using Nat.succ_lt_succ hi)
    simpa [shapedAt, List.cons_append, List.drop_succ_cons] using this

/-- C10: the decoder is unanchored — any text containing (at the position
following `pre`, which is the leftmost such position) a substring
sign–digits–comma–quote–text–quote is accepted by `confirmError`: the
regexp matches exactly that substring's groups, the surrounding
characters are ignored, and the decoded result is determined by the
matched code and message alone (`decodeGroups`). -/
theorem c10_decoder_unanchored (cmd pre : List Char) (sgn : Char) (ds msg suf : List Char)
    (hs : isSignChar sgn = true) (hd : ds ≠ []) (hdd : ds.all isGoDigit = true)
    (hm : msgOk msg = true)
    (hleft : ∀ i, i < pre.length →
      ¬ shapedAt (pre ++ sgn :: (ds ++ ',' :: '"' :: (msg ++ '"' :: suf))) i) :
    findMatch (pre ++ sgn :: (ds ++ ',' :: '"' :: (msg ++ '"' :: suf)))
      = some (sgn :: ds, msg)
    ∧ confirmError cmd (pre ++ sgn :: (ds ++ ',' :: '"' :: (msg ++ '"' :: suf)))
      = decodeGroups cmd (sgn :: ds) msg := by
  have hf := findMatch_leftmost sgn ds msg hs hd hdd hm pre suf hleft
  refine ⟨hf, ?_⟩
  unfold confirmError
  rw [hf]

/-- Witness for C10: a report embedded in leading and trailing garbage
still matches and decodes from its own groups. -/
theorem c10_decoder_unanchored_witness :
    findMatch (['%'] ++ '-' :: ("12".toList ++ ',' :: '"' :: ("Bad".toList ++ '"' :: " x".toList)))
      = some ('-' :: "12".toList, "Bad".toList)
    ∧ confirmError ("*CLS".toList)
        (['%'] ++ '-' :: ("12".toList ++ ',' :: '"' :: ("Bad".toList ++ '"' :: " x".toList)))
      = decodeGroups ("*CLS".toList) ('-' :: "12".toList) ("Bad".toList) := by
  apply c10_decoder_unanchored
  · decide
  · decide
  · decide
  · decide
  · intro i hi
    have h0 : i = 0 := by
      simp only [List.length_singleton] at hi
      omega
    subst h0
    rintro ⟨sgn', ds', msg', rest', heq, hs', -, -, -⟩
    rw [List.drop_zero, List.singleton_append] at heq
    injection heq with h1 h2
    rw [← h1] at hs'
    exact absurd hs' (by decide)

theorem atoi_neg_digits (ds : List Char) (hd : ds ≠ []) (hdd : ds.all isGoDigit = true)
    (hb : digitsVal ds ≤ intMinAbsNat) :
    atoi ('-' :: ds) = .ok (-(digitsVal ds : Int)) := by
  have h1 : atoi ('-' :: ds) = atoiDigits ('-' :: ds) true ds := rfl
  rw [h1]
  unfold atoiDigits
  have hie : ds.isEmpty = false := by
    cases ds
    · exact absurd rfl hd
    · rfl
  rw [hie, hdd]
  simp [hb]

theorem atoi_pos_digits (ds : List Char) (hd : ds ≠ []) (hdd : ds.all isGoDigit = true)
    (hb : digitsVal ds ≤ intMaxNat) :
    atoi ('+' :: ds) = .ok ((digitsVal ds : Int)) := by
  have h1 : atoi ('+' :: ds) = atoiDigits ('+' :: ds) false ds := rfl
  rw [h1]
  unfold atoiDigits
  have hie : ds.isEmpty = false := by
    cases ds
    · exact absurd rfl hd
    · rfl
  rw [hie, hdd]
  simp [hb]

/-- C6 counterexample: the unrestricted round-trip claim fails on the
code. A `CommandError` with code `0` decodes to "no error" (`nil`), not
to a `CommandError`; and a message containing a double quote is cut at
its first quote by the lazy group, so the decoded message is not the
lowercased original. -/
theorem c6_roundtrip_cex :
    confirmError ("foo".toList) (encodeWire 0 ("No error".toList)) = none
    ∧ confirmError ("foo".toList) (encodeWire (-101) ("a\"b".toList))
      = some (.commandError ("foo".toList) (-101) ("a".toList))
    ∧ toLowerList ("a\"b".toList) ≠ ("a".toList) := by
  refine ⟨by decide, by decide, by decide⟩

/-- C6 amended: for every `CommandError` built from a nonzero code in
Go's 64-bit `int` range and a message containing no double quote and no
newline, decoding the wire-format report (signed code, comma, quoted
message) yields a `CommandError` with the same code, the caller's
command, and the ASCII-lowercased message. -/
theorem c6_roundtrip_amended (cmd msg : List Char) (code : Int)
    (h0 : code ≠ 0) (hlo : -(9223372036854775808 : Int) ≤ code)
    (hhi : code ≤ (9223372036854775807 : Int)) (hm : msgOk msg = true) :
    confirmError cmd (encodeWire code msg)
      = some (.commandError cmd code (toLowerList msg)) := by
  by_cases hneg : code < 0
  · have hshape : encodeWire code msg
        = '-' :: (natDigits code.natAbs ++ ',' :: '"' :: (msg ++ '"' :: [])) := by
      simp [encodeWire, hneg]
    have hf : findMatch (encodeWire code msg) = some ('-' :: natDigits code.natAbs, msg) := by
      rw [hshape]
      exact findMatch_cons_some _ _ _
        (matchHere_shaped '-' (natDigits code.natAbs) msg [] (by decide)
          (natDigits_ne_nil _) (natDigits_all _) hm)
    have hb : digitsVal (natDigits code.natAbs) ≤ intMinAbsNat := by
      rw [digitsVal_natDigits]
      unfold intMinAbsNat
      omega
    have ha : atoi ('-' :: natDigits code.natAbs) = .ok code := by
      rw [atoi_neg_digits _ (natDigits_ne_nil _) (natDigits_all _) hb, digitsVal_natDigits]
      congr 1
      omega
    have hce : confirmError cmd (encodeWire code msg)
        = decodeGroups cmd ('-' :: natDigits code.natAbs) msg := by
      unfold confirmError
      rw [hf]
    rw [hce]
    unfold decodeGroups
    rw [ha]
    show (if code = 0 then none
      else some (GoError.commandError cmd code (toLowerList msg)))
      = some (GoError.commandError cmd code (toLowerList msg))
    rw [if_neg h0]
  · have hshape : encodeWire code msg
        = '+' :: (natDigits code.toNat ++ ',' :: '"' :: (msg ++ '"' :: [])) := by
      simp [encodeWire, hneg]
    have hf : findMatch (encodeWire code msg) = some ('+' :: natDigits code.toNat, msg) := by
      rw [hshape]
      exact findMatch_cons_some _ _ _
        (matchHere_shaped '+' (natDigits code.toNat) msg [] (by decide)
          (natDigits_ne_nil _) (natDigits_all _) hm)
    have hb : digitsVal (natDigits code.toNat) ≤ intMaxNat := by
      rw [digitsVal_natDigits]
      unfold intMaxNat
      omega
    have ha : atoi ('+' :: natDigits code.toNat) = .ok code := by
      rw [atoi_pos_digits _ (natDigits_ne_nil _) (natDigits_all _) hb, digitsVal_natDigits]
      congr 1
      omega
    have hce : confirmError cmd (encodeWire code msg)
        = decodeGroups cmd ('+' :: natDigits code.toNat) msg := by
      unfold confirmError
      rw [hf]
    rw [hce]
    unfold decodeGroups
    rw [ha]
    show (if code = 0 then none
      else some (GoError.commandError cmd code (toLowerList msg)))
      = some (GoError.commandError cmd code (toLowerList msg))
    rw [if_neg h0]

/-- Witness for the amended C6: the spec's own example round-trips. -/
theorem c6_roundtrip_amended_witness :
    confirmError ("foo".toList) (encodeWire (-101) ("Invalid character".toList))
      = some (.commandError ("foo".toList) (-101) (toLowerList ("Invalid character".toList))) :=
  c6_roundtrip_amended ("foo".toList) ("Invalid character".toList) (-101)
    (by decide) (by decide) (by decide) (by decide)
